import Mathlib

/-!
# Verification of the flow.ts sequence-combinator library

A shallow embedding of `src/flow.ts`.  Pipelines (`Flow`, `EntryFlow`,
`PromiseFlow`) store, exactly as the TypeScript classes do, an ordered list
of sources (`iterators`); draining a pipeline (`[Symbol.iterator]` /
`[Symbol.asyncIterator]` followed by a terminal operation) concatenates the
sources left to right, which we model by `List.flatten`.  Each source is
modelled by the list of elements it will produce; a promise is modelled by
its resolved value, so async pipelines differ from sync ones only in how
`append`/`prepend` splice sources.  JavaScript runtime values, where claims
depend on nullishness, truthiness or iterability, are modelled by `JSVal`.
-/

namespace FlowTs

/-- A JavaScript runtime value, as far as the claims need it:
numbers, strings, booleans, `null`, `undefined` and arrays. -/
inductive JSVal : Type where
  | undef : JSVal
  | null : JSVal
  | bool : Bool → JSVal
  | num : Int → JSVal
  | str : String → JSVal
  | arr : List JSVal → JSVal

/-- JavaScript loose equality with `null` (`value == null`): true exactly
for `null` and `undefined`. -/
def JSVal.nullish : JSVal → Bool
  | .undef => true
  | .null => true
  | _ => false

/-- The runtime check `typeof value?.[Symbol.iterator] === 'function'`:
strings and arrays are iterable, the other modelled values are not. -/
def JSVal.isIterable : JSVal → Bool
  | .str _ => true
  | .arr _ => true
  | _ => false

/-- The elements produced by iterating an iterable value: an array yields
its members, a string yields its one-character substrings. -/
def JSVal.elements : JSVal → List JSVal
  | .str s => s.data.map (fun c => JSVal.str (String.mk [c]))
  | .arr xs => xs
  | _ => []

/-- The error the specification says unchecked unwrapping raises. -/
inductive JSErr : Type where
  | emptyValueError : JSErr

/-- `class Item<T>` (the Optional), at runtime: it stores the constructor
argument unchanged (`protected value: T | undefined | null`). -/
structure Item : Type where
  value : JSVal

/-- `Item.of(value)` — `new Item(value)`; the argument is stored as is. -/
def Item.of (v : JSVal) : Item := ⟨v⟩

/-- `Item.empty()` — `new Item(undefined)`. -/
def Item.empty : Item := ⟨JSVal.undef⟩

/-- `isEmpty()` — `this.value == null` (loose equality, so both `null`
and `undefined` count as empty). -/
def Item.isEmpty (x : Item) : Bool := x.value.nullish

/-- `isPresent()` — `!this.isEmpty()`. -/
def Item.isPresent (x : Item) : Bool := !x.isEmpty

/-- `get()` — `return this.value!`.  The body contains no `throw`, so the
result type records that the call always succeeds, returning the stored
value (which is `undefined`/`null` when the Item is empty). -/
def Item.get (x : Item) : Except JSErr JSVal := Except.ok x.value

/-- `class Flow<T>`: an ordered list of sources, each source modelled by
the list of elements it produces (`protected readonly iterators`). -/
structure Flow (α : Type) : Type where
  iterators : List (List α)

/-- `Flow.of` for a single already-adapted source (array, set, iterator or
variadic value list): one source holding those elements. -/
def Flow.ofList {α : Type} (xs : List α) : Flow α := ⟨[xs]⟩

/-- `Flow.empty()` — `new Flow([])`. -/
def Flow.empty {α : Type} : Flow α := ⟨[]⟩

/-- `[Symbol.iterator]` driven to exhaustion: `for (iterable of iterables)
yield* iterable` drains the sources strictly left to right. -/
def Flow.toList {α : Type} (f : Flow α) : List α := f.iterators.flatten

/-- `append` — `new Flow([...this.iterators, newSource])`: both runtime
branches place the adapted new source after the existing ones. -/
def Flow.append {α : Type} (f : Flow α) (xs : List α) : Flow α :=
  ⟨f.iterators ++ [xs]⟩

/-- `prepend` — `new Flow([newSource, ...this.iterators])`: both runtime
branches place the adapted new source before the existing ones. -/
def Flow.prepend {α : Type} (f : Flow α) (xs : List α) : Flow α :=
  ⟨[xs] ++ f.iterators⟩

/-- `count()` — drains the pipeline, counting elements. -/
def Flow.count {α : Type} (f : Flow α) : Nat := f.toList.length

/-- `Flow.of(value)` with a single argument, at runtime: if the value has
`[Symbol.iterator]` it is spliced in as a source of its elements,
otherwise it becomes a one-element source. -/
def Flow.ofVal (v : JSVal) : Flow JSVal :=
  if v.isIterable then ⟨[v.elements]⟩ else Flow.ofList [v]

/-- `Item.flow()` — `this.isEmpty() ? Flow.empty() : Flow.of(this.value!)`. -/
def Item.flow (x : Item) : Flow JSVal :=
  if x.isEmpty then Flow.empty else Flow.ofVal x.value

/-- The loop body of `findFirst()`: `for (value of this) return
Item.of(value); return Item.empty()`.  Returns the result together with
the list of elements actually pulled from the sources. -/
def findFirstLoop {α : Type} : List α → Option α × List α
  | [] => (none, [])
  | x :: _ => (some x, [x])

/-- `Flow.findFirst()` at JS values: wraps the loop's result in an Item. -/
def Flow.findFirst (f : Flow JSVal) : Item :=
  match (findFirstLoop f.toList).1 with
  | some v => Item.of v
  | none => Item.empty

/-- The loop body of `some(predicate)`: stops and returns `true` at the
first satisfying element.  Also returns the list of elements the
predicate was evaluated on, in order. -/
def someLoop {α : Type} (p : α → Bool) : List α → Bool × List α
  | [] => (false, [])
  | x :: xs =>
    if p x then (true, [x])
    else
      let r := someLoop p xs
      (r.1, x :: r.2)

/-- `some(predicate)` — result of the short-circuiting loop over the
drained source order. -/
def Flow.some {α : Type} (f : Flow α) (p : α → Bool) : Bool :=
  (someLoop p f.toList).1

/-- The loop body of `every(predicate)`: stops and returns `false` at the
first falsifying element.  Also returns the list of elements the
predicate was evaluated on, in order. -/
def everyLoop {α : Type} (p : α → Bool) : List α → Bool × List α
  | [] => (true, [])
  | x :: xs =>
    if !p x then (false, [x])
    else
      let r := everyLoop p xs
      (r.1, x :: r.2)

/-- `every(predicate)` — result of the short-circuiting loop over the
drained source order. -/
def Flow.every {α : Type} (f : Flow α) (p : α → Bool) : Bool :=
  (everyLoop p f.toList).1

/-- `class EntryFlow<K, V>`: an ordered list of sources of `(K, V)`
pairs. -/
structure EntryFlow (K V : Type) : Type where
  iterators : List (List (K × V))

/-- `EntryFlow.of` for one adapted source of pairs. -/
def EntryFlow.ofList {K V : Type} (xs : List (K × V)) : EntryFlow K V := ⟨[xs]⟩

/-- `[Symbol.iterator]` driven to exhaustion: sources drained left to
right. -/
def EntryFlow.toList {K V : Type} (f : EntryFlow K V) : List (K × V) :=
  f.iterators.flatten

/-- `EntryFlow.append`, iterator/Map branch — the source reads
`new EntryFlow([valueOrValues[Symbol.iterator](), ...this.iterators])`:
the new source is placed BEFORE the existing ones. -/
def EntryFlow.append {K V : Type} (f : EntryFlow K V) (xs : List (K × V)) :
    EntryFlow K V :=
  ⟨[xs] ++ f.iterators⟩

/-- `EntryFlow.append`, plain-record branch — the source reads
`new EntryFlow([Object.entries(...)..., ...this.iterators])`: the record's
entries are likewise placed BEFORE the existing sources. -/
def EntryFlow.appendRecord {K V : Type} (f : EntryFlow K V) (xs : List (K × V)) :
    EntryFlow K V :=
  ⟨[xs] ++ f.iterators⟩

/-- `EntryFlow.prepend`, iterator/Map branch — the source reads
`new EntryFlow([valueOrValues[Symbol.iterator](), ...this.iterators])`:
the new source is placed before the existing ones. -/
def EntryFlow.prepend {K V : Type} (f : EntryFlow K V) (xs : List (K × V)) :
    EntryFlow K V :=
  ⟨[xs] ++ f.iterators⟩

/-- `EntryFlow.prepend`, plain-record branch — the source reads
`new EntryFlow([...this.iterators, Object.entries(...)...])`: the record's
entries are placed AFTER the existing sources. -/
def EntryFlow.prependRecord {K V : Type} (f : EntryFlow K V) (xs : List (K × V)) :
    EntryFlow K V :=
  ⟨f.iterators ++ [xs]⟩

/-- The generator body of `collapseKeys()`.  `truthy` models JavaScript
truthiness of keys of type `K` (e.g. for numbers `n ≠ 0`, for strings
`s ≠ ""`), because the source guards both the mid-stream flush and the
final flush with `if (collapseKey ...)`, a truthiness test on the key.
The first state argument is `collapseKey` (initially `undefined`), the
second is `collapseValues`. -/
def collapseLoop {K V : Type} [DecidableEq K] (truthy : K → Bool) :
    Option K → List V → List (K × V) → List (K × List V)
  | ck, cvs, [] =>
    match ck with
    | some k0 => if truthy k0 then [(k0, cvs)] else []
    | none => []
  | ck, cvs, (k, v) :: rest =>
    match ck with
    | some k0 =>
      if truthy k0 && decide (k0 ≠ k) then
        (k0, cvs) :: collapseLoop truthy (some k) [v] rest
      else
        collapseLoop truthy (some k) (cvs ++ [v]) rest
    | none => collapseLoop truthy (some k) (cvs ++ [v]) rest

/-- `collapseKeys()` — runs the generator over the drained pairs. -/
def EntryFlow.collapseKeys {K V : Type} [DecidableEq K] (truthy : K → Bool)
    (f : EntryFlow K V) : List (K × List V) :=
  collapseLoop truthy none [] f.toList

/-- `map.get(key).push(value)` preceded by `map.set(key, [])` when absent:
appends `v` to the entry for `k`, keeping first-insertion order, adding a
new entry at the end when `k` is new (JS `Map` insertion-order
semantics). -/
def mapPush {K V : Type} [DecidableEq K] :
    List (K × List V) → K → V → List (K × List V)
  | [], k, v => [(k, [v])]
  | (k0, vs) :: rest, k, v =>
    if k0 = k then (k0, vs ++ [v]) :: rest
    else (k0, vs) :: mapPush rest k v

/-- `grouping()` — fills a `Map<K, V[]>` over the whole drained input and
yields its entries in first-seen key order. -/
def EntryFlow.grouping {K V : Type} [DecidableEq K] (f : EntryFlow K V) :
    List (K × List V) :=
  f.toList.foldl (fun m e => mapPush m e.1 e.2) []

/-- The generator body of `filterValues(predicate)`.  In the source the
`index++` sits INSIDE the `if (predicate(entry[1], index))` block, so the
index advances only when an entry is retained.  Returns the retained
entries together with the `(value, index)` arguments the predicate was
called with, in call order. -/
def filterValuesLoop {K V : Type} (p : V → Nat → Bool) :
    Nat → List (K × V) → List (K × V) × List (V × Nat)
  | _, [] => ([], [])
  | i, (k, v) :: rest =>
    if p v i then
      let r := filterValuesLoop p (i + 1) rest
      ((k, v) :: r.1, (v, i) :: r.2)
    else
      let r := filterValuesLoop p i rest
      (r.1, (v, i) :: r.2)

/-- `filterValues(predicate)` — the retained entries, as a new
one-source pipeline. -/
def EntryFlow.filterValues {K V : Type} (p : V → Nat → Bool) (f : EntryFlow K V) :
    EntryFlow K V :=
  ⟨[(filterValuesLoop p 0 f.toList).1]⟩

/-- The generator body of `filterKeys(predicate)`.  Here `index++` sits
after the `if`, so the index advances at every source entry.  Returns the
retained entries together with the `(key, index)` arguments the predicate
was called with, in call order. -/
def filterKeysLoop {K V : Type} (p : K → Nat → Bool) :
    Nat → List (K × V) → List (K × V) × List (K × Nat)
  | _, [] => ([], [])
  | i, (k, v) :: rest =>
    let r := filterKeysLoop p (i + 1) rest
    (if p k i then (k, v) :: r.1 else r.1, (k, i) :: r.2)

/-- `filterKeys(predicate)` — the retained entries, as a new one-source
pipeline. -/
def EntryFlow.filterKeys {K V : Type} (p : K → Nat → Bool) (f : EntryFlow K V) :
    EntryFlow K V :=
  ⟨[(filterKeysLoop p 0 f.toList).1]⟩

/-- `class PromiseFlow<T>`: an ordered list of asynchronous sources; each
source is modelled by the list of the values its promises resolve to. -/
structure PromiseFlow (α : Type) : Type where
  iterators : List (List α)

/-- `PromiseFlow.of` for one adapted source. -/
def PromiseFlow.ofList {α : Type} (xs : List α) : PromiseFlow α := ⟨[xs]⟩

/-- `[Symbol.asyncIterator]` driven to exhaustion: sources drained left to
right, awaiting each element. -/
def PromiseFlow.toList {α : Type} (f : PromiseFlow α) : List α :=
  f.iterators.flatten

/-- `PromiseFlow.append` — all three runtime branches read
`new PromiseFlow([adaptedNewSource, ...this.iterators])`: the new source
is placed BEFORE the existing ones. -/
def PromiseFlow.append {α : Type} (f : PromiseFlow α) (xs : List α) :
    PromiseFlow α :=
  ⟨[xs] ++ f.iterators⟩

/-- `PromiseFlow.prepend` — all three runtime branches read
`new PromiseFlow([...this.iterators, adaptedNewSource])`: the new source
is placed AFTER the existing ones. -/
def PromiseFlow.prepend {α : Type} (f : PromiseFlow α) (xs : List α) :
    PromiseFlow α :=
  ⟨f.iterators ++ [xs]⟩

/-- A JavaScript comparator result interpreted as an order: `x` sorts no
later than `y` when `comparator(x, y) <= 0`. -/
def jsSortRel {α : Type} (c : α → α → Int) : α → α → Prop :=
  fun x y => c x y ≤ 0

instance jsSortRelDecidable {α : Type} (c : α → α → Int) :
    DecidableRel (jsSortRel c) :=
  fun x y => inferInstanceAs (Decidable (c x y ≤ 0))

/-- `Array.prototype.sort(comparator)`: the ECMAScript specification
requires a stable sort consistent with the comparator; we model it by the
canonical stable sort (insertion sort places an element before every
later-arriving element it does not compare after). -/
def jsArraySort {α : Type} (c : α → α → Int) (xs : List α) : List α :=
  xs.insertionSort (jsSortRel c)

/-- `sort(comparator)` — `Flow.of(Array.from(this).sort(comparator))`:
drains the pipeline, sorts the buffered array, re-wraps it. -/
def Flow.sort {α : Type} (f : Flow α) (c : α → α → Int) : Flow α :=
  Flow.ofList (jsArraySort c f.toList)

/-- `sortBy(extractor, comparator)` — sorts with the comparator
`(x, y) => comparator(extractor(x), extractor(y))`. -/
def Flow.sortBy {α κ : Type} (f : Flow α) (g : α → κ) (c : κ → κ → Int) :
    Flow α :=
  Flow.ofList (jsArraySort (fun x y => c (g x) (g y)) f.toList)

/-- Code-unit lexicographic "less than" on strings (as character lists),
the comparison ECMAScript SortCompare applies to the string conversions
of the elements when `sort()` is given no comparator. -/
def codeUnitLt : List Char → List Char → Bool
  | _, [] => false
  | [], _ :: _ => true
  | a :: as, b :: bs =>
    if a.toNat < b.toNat then true
    else if b.toNat < a.toNat then false
    else codeUnitLt as bs

/-- The default comparator JavaScript uses when `sort()` is called with no
argument: elements are converted to strings and compared by code units.
For natural numbers the string conversion is the decimal representation. -/
def jsDefaultComparator (x y : Nat) : Int :=
  if codeUnitLt (Nat.repr x).data (Nat.repr y).data then -1
  else if codeUnitLt (Nat.repr y).data (Nat.repr x).data then 1
  else 0

/-- `sort()` with no comparator: `Array.from(this).sort(undefined)` sorts
with the default string-conversion comparator. -/
def Flow.sortDefault (f : Flow Nat) : Flow Nat :=
  f.sort jsDefaultComparator

/-! ## Theorems about the claims -/

/-- C7: for the synchronous `Flow`, `append` adds its elements after all
existing sources and `prepend` adds its elements before them, so
`of(1,2).append(3,4).prepend(0)` drains to exactly `[0,1,2,3,4]`. -/
theorem C7_flow_append_prepend_order (α : Type) :
    (∀ (f : Flow α) (xs : List α),
      (f.append xs).toList = f.toList ++ xs ∧
      (f.prepend xs).toList = xs ++ f.toList) ∧
    (((Flow.ofList [1, 2] : Flow Nat).append [3, 4]).prepend [0]).toList =
      [0, 1, 2, 3, 4] := by
  refine ⟨fun f xs => ⟨?_, ?_⟩, rfl⟩
  · simp [Flow.append, Flow.toList]
  · simp [Flow.prepend, Flow.toList]

/-- C1: the code of `PromiseFlow.append` splices the new source at the
START of the source list and `PromiseFlow.prepend` at the END — the exact
opposite of the synchronous `Flow`, so draining the async pipeline does
not match the synchronous counterpart on the same sources. -/
theorem C1_promiseflow_append_prepend_swapped :
    ((PromiseFlow.ofList [1, 2] : PromiseFlow Nat).append [3, 4]).toList =
      [3, 4, 1, 2] ∧
    ((PromiseFlow.ofList [1, 2] : PromiseFlow Nat).prepend [0]).toList =
      [1, 2, 0] ∧
    ((Flow.ofList [1, 2] : Flow Nat).append [3, 4]).toList = [1, 2, 3, 4] ∧
    ((Flow.ofList [1, 2] : Flow Nat).prepend [0]).toList = [0, 1, 2] ∧
    ((PromiseFlow.ofList [1, 2] : PromiseFlow Nat).append [3, 4]).toList ≠
      ((Flow.ofList [1, 2] : Flow Nat).append [3, 4]).toList := by
  refine ⟨rfl, rfl, rfl, rfl, by decide⟩

/-- C2: the code of `EntryFlow.append` splices the new source at the START
of the source list in both runtime branches, and `EntryFlow.prepend`
splices a plain record at the END; so appending yields the appended pairs
first, contradicting the claim, while `prepend` on a record yields the
receiver's pairs first. -/
theorem C2_entryflow_append_prepend_splice_bug :
    ((EntryFlow.ofList [("a", 1)]).append [("b", 2)]).toList =
      [("b", 2), ("a", 1)] ∧
    ((EntryFlow.ofList [("a", 1)]).appendRecord [("b", 2)]).toList =
      [("b", 2), ("a", 1)] ∧
    ((EntryFlow.ofList [("a", 1)]).prepend [("b", 2)]).toList =
      [("b", 2), ("a", 1)] ∧
    ((EntryFlow.ofList [("a", 1)]).prependRecord [("b", 2)]).toList =
      [("a", 1), ("b", 2)] ∧
    ([(("b" : String), (2 : Nat)), ("a", 1)] : List (String × Nat)) ≠
      [("a", 1), ("b", 2)] := by
  refine ⟨rfl, rfl, rfl, rfl, by decide⟩

/-- C9: `Optional.of(null)`, `Optional.of(undefined)` and
`Optional.empty()` are all empty and not present, and in general an
`Item` built by `of` is present exactly when its payload is not nullish:
a nullish application value can never be stored as a present value. -/
theorem C9_nullish_conflated_with_empty :
    (Item.of JSVal.null).isEmpty = true ∧
    (Item.of JSVal.undef).isEmpty = true ∧
    Item.empty.isEmpty = true ∧
    (Item.of JSVal.null).isPresent = false ∧
    (Item.of JSVal.undef).isPresent = false ∧
    Item.empty.isPresent = false ∧
    (∀ v : JSVal, (Item.of v).isEmpty = v.nullish ∧
      (Item.of v).isPresent = !v.nullish) :=
  ⟨rfl, rfl, rfl, rfl, rfl, rfl, fun _ => ⟨rfl, rfl⟩⟩

/-- C3 counterexample: `get()` on an empty Optional does NOT fail with
`EmptyValueError`; it returns the stored `undefined` successfully. -/
theorem C3_get_counterexample :
    Item.empty.get = Except.ok JSVal.undef ∧
    Item.empty.get ≠ Except.error JSErr.emptyValueError :=
  ⟨rfl, fun h => Except.noConfusion h⟩

/-- C3 amended: `get()` never fails; on a present Optional it returns the
contained value, and on an empty Optional it returns the stored nullish
content (for `Optional.empty()`, `undefined`) instead of raising
`EmptyValueError`. -/
theorem C3_get_amended :
    (∀ v : JSVal, (Item.of v).get = Except.ok v) ∧
    (∀ v : JSVal, (Item.of v).get ≠ Except.error JSErr.emptyValueError) ∧
    Item.empty.get = Except.ok JSVal.undef :=
  ⟨fun _ => rfl, fun _ h => Except.noConfusion h, rfl⟩

/-- C5: on the spec's example `collapseKeys` and `grouping` behave as
claimed, but `collapseKeys` guards its flushes with a TRUTHINESS test on
the key (`if (collapseKey)`), so a run whose key is falsy (here the
number 0) is dropped or merged into the following run, contradicting the
claim's universal statement. -/
theorem C5_collapse_grouping_truthiness_bug :
    (EntryFlow.ofList [("a", 1), ("a", 2), ("b", 3), ("a", 4)]).collapseKeys
        (fun s => decide (s ≠ "")) =
      [("a", [1, 2]), ("b", [3]), ("a", [4])] ∧
    (EntryFlow.ofList [("a", 1), ("a", 2), ("b", 3), ("a", 4)]).grouping =
      [("a", [1, 2, 4]), ("b", [3])] ∧
    (EntryFlow.ofList [((0 : Nat), (1 : Nat))]).collapseKeys
        (fun n => decide (n ≠ 0)) = [] ∧
    (EntryFlow.ofList [((0 : Nat), (1 : Nat)), (1, 2)]).collapseKeys
        (fun n => decide (n ≠ 0)) = [(1, [1, 2])] := by
  refine ⟨?_, ?_, ?_, ?_⟩ <;> rfl

/-- C6 counterexample: for the non-absent value `[1, 2]` (a JS array),
bridging the Optional to a Sequence spreads the array into its elements
(`Flow.of` treats any iterable argument as a source of its elements), so
`findFirst().get()` returns the first element, not the boxed value. -/
theorem C6_optional_roundtrip_counterexample :
    (JSVal.arr [JSVal.num 1, JSVal.num 2]).nullish = false ∧
    (Item.of (JSVal.arr [JSVal.num 1, JSVal.num 2])).flow.findFirst.get =
      Except.ok (JSVal.num 1) ∧
    (Item.of (JSVal.arr [JSVal.num 1, JSVal.num 2])).flow.findFirst.get ≠
      Except.ok (JSVal.arr [JSVal.num 1, JSVal.num 2]) := by
  refine ⟨rfl, rfl, fun h => ?_⟩
  injection h with h'
  exact JSVal.noConfusion h'

/-- C6 amended: the round trip recovers the boxed value for every
non-absent value that `Flow.of` does not treat as iterable (not a string
or array); and an empty Optional bridges to a zero-element Sequence. -/
theorem C6_optional_roundtrip_amended (v : JSVal)
    (h1 : v.nullish = false) (h2 : v.isIterable = false) :
    (Item.of v).flow.findFirst.get = Except.ok v ∧
    Item.empty.flow.count = 0 := by
  refine ⟨?_, rfl⟩
  simp [Item.flow, Item.of, Item.isEmpty, h1, h2, Flow.ofVal, Flow.ofList,
    Flow.findFirst, Flow.toList, findFirstLoop, Item.get]

/-- Witness for the amended C6 round trip at the number 5. -/
theorem C6_optional_roundtrip_amended_witness :
    (Item.of (JSVal.num 5)).flow.findFirst.get = Except.ok (JSVal.num 5) ∧
    Item.empty.flow.count = 0 :=
  C6_optional_roundtrip_amended (JSVal.num 5) rfl rfl

/-- The short-circuiting loop of `some` returns whether any element
satisfies the predicate, and evaluates the predicate exactly on the
failing prefix plus the first satisfying element (when one exists). -/
theorem someLoop_eq {α : Type} (p : α → Bool) (l : List α) :
    someLoop p l =
      (l.any p,
        l.takeWhile (fun x => !p x) ++ (l.dropWhile (fun x => !p x)).take 1) := by
  induction l with
  | nil => rfl
  | cons x xs ih =>
    by_cases h : p x
    · simp [someLoop, h]
    · simp [someLoop, h, ih]

/-- The short-circuiting loop of `every` returns whether all elements
satisfy the predicate, and evaluates the predicate exactly on the
satisfying prefix plus the first falsifying element (when one exists). -/
theorem everyLoop_eq {α : Type} (p : α → Bool) (l : List α) :
    everyLoop p l =
      (l.all p, l.takeWhile p ++ (l.dropWhile p).take 1) := by
  induction l with
  | nil => rfl
  | cons x xs ih =>
    by_cases h : p x
    · simp [everyLoop, h, ih]
    · simp [everyLoop, h]

/-- The loop of `findFirst` returns the head and pulls at most the first
element. -/
theorem findFirstLoop_eq {α : Type} (l : List α) :
    findFirstLoop l = (l.head?, l.take 1) := by
  cases l <;> rfl

/-- C8: `some`, `every` and `findFirst` short-circuit: `some` returns
whether some drained element satisfies the predicate and evaluates it
only on the elements up to and including the first satisfying one;
`every` symmetrically stops at the first falsifying element; `findFirst`
pulls at most one element.  On `of(1,2,3,4).some(x => x > 1)` the
predicate is evaluated exactly on `1` and `2`. -/
theorem C8_short_circuit {α : Type} (p : α → Bool) (f : Flow α) :
    (f.some p = f.toList.any p ∧
      (someLoop p f.toList).2 =
        f.toList.takeWhile (fun x => !p x) ++
          (f.toList.dropWhile (fun x => !p x)).take 1) ∧
    (f.every p = f.toList.all p ∧
      (everyLoop p f.toList).2 =
        f.toList.takeWhile p ++ (f.toList.dropWhile p).take 1) ∧
    ((findFirstLoop f.toList).2 = f.toList.take 1 ∧
      (findFirstLoop f.toList).2.length ≤ 1) ∧
    someLoop (fun x => decide (x > 1))
        (Flow.ofList [1, 2, 3, 4] : Flow Nat).toList = (true, [1, 2]) := by
  refine ⟨⟨?_, ?_⟩, ⟨?_, ?_⟩, ⟨?_, ?_⟩, by decide⟩
  · rw [Flow.some, someLoop_eq]
  · rw [someLoop_eq]
  · rw [Flow.every, everyLoop_eq]
  · rw [everyLoop_eq]
  · rw [findFirstLoop_eq]
  · rw [findFirstLoop_eq]
    simp

/-- When the predicate ignores its index argument, `filterValues` retains
exactly the entries whose value satisfies it, in source order. -/
theorem filterValuesLoop_fst_ignore {K V : Type} (q : V → Bool)
    (l : List (K × V)) : ∀ i : Nat,
    (filterValuesLoop (fun v _ => q v) i l).1 = l.filter (fun e => q e.2) := by
  induction l with
  | nil => intro i; rfl
  | cons e rest ih =>
    intro i
    obtain ⟨k, v⟩ := e
    by_cases h : q v
    · simp [filterValuesLoop, h, ih]
    · simp [filterValuesLoop, h, ih]

/-- When the predicate ignores its index argument, `filterKeys` retains
exactly the entries whose key satisfies it, in source order. -/
theorem filterKeysLoop_fst_ignore {K V : Type} (q : K → Bool)
    (l : List (K × V)) : ∀ i : Nat,
    (filterKeysLoop (fun k _ => q k) i l).1 = l.filter (fun e => q e.1) := by
  induction l with
  | nil => intro i; rfl
  | cons e rest ih =>
    intro i
    obtain ⟨k, v⟩ := e
    by_cases h : q k
    · simp [filterKeysLoop, h, ih]
    · simp [filterKeysLoop, h, ih]

/-- `filterKeys` hands its predicate the zero-based source position:
starting at `i`, the successive index arguments are `i, i+1, i+2, …`. -/
theorem filterKeysLoop_indices {K V : Type} (p : K → Nat → Bool)
    (l : List (K × V)) : ∀ i : Nat,
    (filterKeysLoop p i l).2.map Prod.snd = List.range' i l.length := by
  induction l with
  | nil => intro i; rfl
  | cons e rest ih =>
    intro i
    obtain ⟨k, v⟩ := e
    simp [filterKeysLoop, ih, List.range'_succ]

/-- `filterValues` hands its predicate, at the source entry in position
`j`, the index `i` plus the number of entries retained among the first
`j` entries (because the source only increments the index inside the
retention branch). -/
theorem filterValuesLoop_indices {K V : Type} (p : V → Nat → Bool)
    (l : List (K × V)) : ∀ i : Nat,
    (filterValuesLoop p i l).2.map Prod.snd =
      (List.range l.length).map
        (fun j => i + ((filterValuesLoop p i (l.take j)).1).length) := by
  induction l with
  | nil => intro i; rfl
  | cons e rest ih =>
    intro i
    obtain ⟨k, v⟩ := e
    rw [List.length_cons, List.range_succ_eq_map, List.map_cons, List.map_map]
    by_cases h : p v i
    · simp only [filterValuesLoop, h, if_pos, List.map_cons]
      refine congrArg₂ List.cons (by simp [filterValuesLoop]) ?_
      rw [ih (i + 1)]
      refine List.map_congr_left fun j hj => ?_
      simp only [Function.comp_apply, List.take_succ_cons, filterValuesLoop, h,
        if_pos, List.length_cons]
      omega
    · simp only [filterValuesLoop, h, if_neg, List.map_cons, Bool.false_eq_true,
        not_false_eq_true]
      refine congrArg₂ List.cons (by simp [filterValuesLoop]) ?_
      rw [ih i]
      refine List.map_congr_left fun j hj => ?_
      simp only [Function.comp_apply, List.take_succ_cons, filterValuesLoop, h,
        Bool.false_eq_true, not_false_eq_true, if_neg]

/-- C10: the index `filterValues` passes to its predicate equals the
number of entries already retained so far (not the source position),
while `filterKeys` passes the zero-based source position; for
index-ignoring predicates both still yield exactly the entries
satisfying the predicate on their side, in source order. -/
theorem C10_filter_index_semantics {K V : Type} (p : V → Nat → Bool)
    (pk : K → Nat → Bool) (q : V → Bool) (qk : K → Bool) (f : EntryFlow K V) :
    ((filterValuesLoop p 0 f.toList).2.map Prod.snd =
      (List.range f.toList.length).map
        (fun j => ((filterValuesLoop p 0 (f.toList.take j)).1).length)) ∧
    ((filterKeysLoop pk 0 f.toList).2.map Prod.snd =
      List.range f.toList.length) ∧
    ((f.filterValues (fun v _ => q v)).toList =
      f.toList.filter (fun e => q e.2)) ∧
    ((f.filterKeys (fun k _ => qk k)).toList =
      f.toList.filter (fun e => qk e.1)) := by
  refine ⟨?_, ?_, ?_, ?_⟩
  · rw [filterValuesLoop_indices]
    exact List.map_congr_left fun j _ => by omega
  · rw [filterKeysLoop_indices, List.range_eq_range']
  · simp [EntryFlow.filterValues, EntryFlow.toList, filterValuesLoop_fst_ignore]
  · simp [EntryFlow.filterKeys, EntryFlow.toList, filterKeysLoop_fst_ignore]

/-- `Flow.ofList` wraps a single source; draining it returns exactly that
source's elements. -/
theorem ofList_toList {α : Type} (xs : List α) : (Flow.ofList xs).toList = xs := by
  simp [Flow.ofList, Flow.toList]

/-- Code-unit comparison never holds both ways. -/
theorem codeUnitLt_asymm (a : List Char) : ∀ b : List Char,
    codeUnitLt a b = true → codeUnitLt b a = false := by
  induction a with
  | nil =>
    intro b h
    cases b with
    | nil => simp [codeUnitLt] at h
    | cons y ys => simp [codeUnitLt]
  | cons x xs ih =>
    intro b h
    cases b with
    | nil => simp [codeUnitLt] at h
    | cons y ys =>
      simp only [codeUnitLt] at h ⊢
      by_cases hxy : x.toNat < y.toNat
      · have hyx : ¬ y.toNat < x.toNat := by omega
        simp [hxy, hyx]
      · by_cases hyx : y.toNat < x.toNat
        · simp [hxy, hyx] at h
        · simp only [hxy, hyx, if_false] at h
          simp [hxy, hyx, ih ys h]

/-- The negation of code-unit comparison is transitive. -/
theorem codeUnitLt_le_trans (a : List Char) : ∀ b c : List Char,
    codeUnitLt b a = false → codeUnitLt c b = false → codeUnitLt c a = false := by
  induction a with
  | nil =>
    intro b c h1 h2
    cases c <;> rfl
  | cons x xs ih =>
    intro b c h1 h2
    cases b with
    | nil => simp [codeUnitLt] at h1
    | cons y ys =>
      cases c with
      | nil => simp [codeUnitLt] at h2
      | cons z zs =>
        simp only [codeUnitLt] at h1 h2 ⊢
        by_cases hyx : y.toNat < x.toNat
        · simp [hyx] at h1
        · by_cases hzy : z.toNat < y.toNat
          · simp [hzy] at h2
          · by_cases hxy : x.toNat < y.toNat
            · have hzx : ¬ z.toNat < x.toNat := by omega
              have hxz : x.toNat < z.toNat := by omega
              simp [hzx, hxz]
            · by_cases hyz : y.toNat < z.toNat
              · have hzx : ¬ z.toNat < x.toNat := by omega
                have hxz : x.toNat < z.toNat := by omega
                simp [hzx, hxz]
              · have hzx : ¬ z.toNat < x.toNat := by omega
                have hxz : ¬ x.toNat < z.toNat := by omega
                simp only [hyx, hzy, hxy, hyz, if_false] at h1 h2
                simp [hzx, hxz, ih ys zs h1 h2]

/-- The default comparator prefers `x` to `y` (returns at most 0) exactly
when the decimal string of `y` is not code-unit-below that of `x`. -/
theorem jsDefaultComparator_le_iff (x y : Nat) :
    jsDefaultComparator x y ≤ 0 ↔
      codeUnitLt (Nat.repr y).data (Nat.repr x).data = false := by
  unfold jsDefaultComparator
  by_cases h1 : codeUnitLt (Nat.repr x).data (Nat.repr y).data
  · simp [h1, codeUnitLt_asymm _ _ h1]
  · by_cases h2 : codeUnitLt (Nat.repr y).data (Nat.repr x).data
    · simp [h1, h2]
    · simp [h1, h2]

/-- C4 counterexample: `sort()` with no comparator does NOT use numeric
ascending order — it compares decimal strings by code units, so
`of(10, 9).sort()` drains to `[10, 9]`, not `[9, 10]`. -/
theorem C4_sort_default_counterexample :
    (Flow.ofList [10, 9] : Flow Nat).sortDefault.toList = [10, 9] ∧
    (Flow.ofList [10, 9] : Flow Nat).sortDefault.toList ≠ [9, 10] := by decide

/-- C4 amended: `sort` with a consistent comparator is a stable sort
(permutation of the input, sorted by the comparator, ties keep their
original relative order), `sortBy` orders solely by the projected key
(it is exactly `sort` with the comparator composed over the extractor),
and `sort()` with no comparator orders by the code-unit order of the
elements' decimal string conversions — not by numeric value. -/
theorem C4_sort_amended {α : Type} (c : α → α → Int)
    (htrans : ∀ a b d : α, c a b ≤ 0 → c b d ≤ 0 → c a d ≤ 0)
    (htotal : ∀ a b : α, c a b ≤ 0 ∨ c b a ≤ 0) :
    (∀ f : Flow α,
      (f.sort c).toList.Perm f.toList ∧
      (f.sort c).toList.Pairwise (fun x y => c x y ≤ 0) ∧
      ∀ a b : α, c a b = 0 → [a, b].Sublist f.toList →
        [a, b].Sublist (f.sort c).toList) ∧
    (∀ (κ : Type) (g : α → κ) (ck : κ → κ → Int) (f : Flow α),
      f.sortBy g ck = f.sort (fun x y => ck (g x) (g y))) ∧
    (∀ fn : Flow Nat,
      fn.sortDefault.toList.Perm fn.toList ∧
      fn.sortDefault.toList.Pairwise
        (fun x y => codeUnitLt (Nat.repr y).data (Nat.repr x).data = false)) := by
  haveI : IsTrans α (jsSortRel c) := ⟨htrans⟩
  haveI : IsTotal α (jsSortRel c) := ⟨htotal⟩
  haveI : IsTrans Nat (jsSortRel jsDefaultComparator) :=
    ⟨fun a b d hab hbd =>
      (jsDefaultComparator_le_iff a d).mpr
        (codeUnitLt_le_trans _ _ _
          ((jsDefaultComparator_le_iff a b).mp hab)
          ((jsDefaultComparator_le_iff b d).mp hbd))⟩
  haveI : IsTotal Nat (jsSortRel jsDefaultComparator) :=
    ⟨fun a b => by
      by_cases h : codeUnitLt (Nat.repr b).data (Nat.repr a).data
      · right
        exact (jsDefaultComparator_le_iff b a).mpr (codeUnitLt_asymm _ _ h)
      · left
        exact (jsDefaultComparator_le_iff a b).mpr (Bool.eq_false_iff.mpr h)⟩
  refine ⟨fun f => ⟨?_, ?_, ?_⟩, fun κ g ck f => rfl, fun fn => ⟨?_, ?_⟩⟩
  · rw [Flow.sort, ofList_toList]
    exact List.perm_insertionSort _ _
  · rw [Flow.sort, ofList_toList]
    exact List.sorted_insertionSort (jsSortRel c) f.toList
  · intro a b hab hsub
    rw [Flow.sort, ofList_toList]
    exact List.pair_sublist_insertionSort (r := jsSortRel c) (le_of_eq hab) hsub
  · rw [Flow.sortDefault, Flow.sort, ofList_toList]
    exact List.perm_insertionSort _ _
  · rw [Flow.sortDefault, Flow.sort, ofList_toList]
    exact (List.sorted_insertionSort (jsSortRel jsDefaultComparator)
      fn.toList).imp (fun h => (jsDefaultComparator_le_iff _ _).mp h)

/-- Witness for the amended C4 at the comparator `(x, y) => x - y` and
the input `of(3, 1, 2)`. -/
theorem C4_sort_amended_witness :
    ((Flow.ofList [3, 1, 2] : Flow Nat).sort
        (fun x y => (x : Int) - (y : Int))).toList.Pairwise
      (fun x y => (x : Int) - (y : Int) ≤ 0) :=
  (((C4_sort_amended (fun x y => (x : Int) - (y : Int))
      (fun a b d hab hbd => by
        have h1 : (a : Int) - b ≤ 0 := hab
        have h2 : (b : Int) - d ≤ 0 := hbd
        show (a : Int) - d ≤ 0
        omega)
      (fun a b => by
        have h : ((a : Int) - b ≤ 0) ∨ ((b : Int) - a ≤ 0) := by omega
        exact h)).1 (Flow.ofList [3, 1, 2])).2.1)

end FlowTs
